import Mathlib

/-!
Shallow embedding of the `geo-rand` crate (`src/lib.rs`): random generation
of points, polygons and multi-polygons, with the contour construction
`points_to_contour` and the collision-avoidance loop of
`MultiPolygon::rand`.

The contour algorithm is embedded generically over a linearly ordered ring
(the crate is generic over its numeric type `T`); the random generators are
embedded at `ℚ`.  The caller-supplied RNG is modelled as an infinite stream
of uniform draws in `[0,1)`, consumed one draw at a time at increasing
indices; `gen_range lo hi` maps the next draw affinely onto `[lo, hi)`,
matching the uniform-sampling contract of the rand crate.  The pairwise
intersection predicate of the `geo` crate is an external collaborator and
is taken as an abstract parameter of `MultiPolygon::rand`.
-/

namespace GeoRand

/-- A planar point `geo::Point` with coordinates in `α`. -/
abbrev Point (α : Type) : Type := α × α

variable {α : Type} [LinearOrderedRing α]

/-- Vector subtraction `point - point` used by `points_to_contour`. -/
def psub (a b : Point α) : Point α := (a.1 - b.1, a.2 - b.2)

/-- `left_turn_test` (src/lib.rs:179-184): whether the 2-D cross product of
the two vectors is non-negative. -/
def left_turn_test (point other_point : Point α) : Bool :=
  decide (point.1 * other_point.2 - point.2 * other_point.1 ≥ 0)

/-- First component of the fold step at src/lib.rs:146-151: keep the point
with strictly smaller x (a tie keeps the accumulator). -/
def leftStep (left_most point : Point α) : Point α :=
  if point.1 < left_most.1 then point else left_most

/-- Second component of the fold step at src/lib.rs:152-157: keep the point
with larger-or-equal x (a tie moves to the new point). -/
def rightStep (right_most point : Point α) : Point α :=
  if point.1 ≥ right_most.1 then point else right_most

/-- The fold at src/lib.rs:143-159: starting from the first point as both
accumulators, scan the remaining points for the leftmost and rightmost. -/
def extremes (first_point : Point α) (rest : List (Point α)) : Point α × Point α :=
  rest.foldl (fun acc point => (leftStep acc.1 point, rightStep acc.2 point))
    (first_point, first_point)

/-- The ascending sort comparator of src/lib.rs:166,
`(a.x() - b.x()).partial_cmp(&zero)`: sort by ascending x. -/
def ascX (a b : Point α) : Prop := a.1 ≤ b.1

/-- The descending sort comparator of src/lib.rs:167,
`(b.x() - a.x()).partial_cmp(&zero)`: sort by descending x. -/
def descX (a b : Point α) : Prop := b.1 ≤ a.1

instance : DecidableRel (ascX (α := α)) :=
  fun a b => inferInstanceAs (Decidable (a.1 ≤ b.1))

instance : DecidableRel (descX (α := α)) :=
  fun a b => inferInstanceAs (Decidable (b.1 ≤ a.1))

instance : IsTotal (Point α) ascX := ⟨fun a b => le_total a.1 b.1⟩

instance : IsTrans (Point α) ascX := ⟨fun _ _ _ hab hbc => le_trans hab hbc⟩

instance : IsTotal (Point α) descX := ⟨fun a b => le_total b.1 a.1⟩

instance : IsTrans (Point α) descX := ⟨fun _ _ _ hab hbc => le_trans hbc hab⟩

/-- `points_to_contour` (src/lib.rs:139-177): `none` on the empty list,
otherwise the closed chain leftmost, above list sorted by ascending x,
rightmost, below list sorted by descending x, leftmost again.  The
source's stable `sort_by` on the x comparator is embedded as the stable
insertion sort on the same comparator (two stable sorts under the same
comparator agree pointwise). -/
def points_to_contour : List (Point α) → Option (List (Point α))
  | [] => none
  | first_point :: rest =>
    let lr := extremes first_point rest
    let ab := ((first_point :: rest).filter
        (fun point => decide (point ≠ lr.1 ∧ point ≠ lr.2))).partition
      (fun point => left_turn_test (psub lr.2 lr.1) (psub point lr.1))
    some (lr.1 :: (List.insertionSort ascX ab.1 ++
      lr.2 :: (List.insertionSort descX ab.2 ++ [lr.1])))

/-- `GeoRandParameters` (src/lib.rs:30-39), coordinates at `ℚ`. -/
structure GeoRandParameters where
  max_polygons_count : Nat
  max_polygon_vertices_count : Nat
  max_collisions_count : Option Nat
  min_x : ℚ
  min_y : ℚ
  max_x : ℚ
  max_y : ℚ
deriving DecidableEq

/-- `GeoRandParameters::default` (src/lib.rs:41-53). -/
def defaultParameters : GeoRandParameters :=
  { max_polygons_count := 60
    max_polygon_vertices_count := 7
    max_collisions_count := some 100
    min_x := 0
    min_y := 0
    max_x := 100
    max_y := 100 }

/-- The caller-owned RNG, threaded by mutable reference in the source:
a stream of uniform draws in `[0,1)` and the index of the next draw. -/
structure RngState where
  stream : Nat → ℚ
  idx : Nat

/-- The stream draws the model takes as uniform: every value in `[0,1)`. -/
def RngState.uniform (s : RngState) : Prop :=
  ∀ i, 0 ≤ s.stream i ∧ s.stream i < 1

/-- `rng.gen_range(lo, hi)` on the coordinate type: consume one draw `u`
and return `lo + u * (hi - lo)`, the affine map of `[0,1)` onto `[lo,hi)`. -/
def gen_range (lo hi : ℚ) (s : RngState) : ℚ × RngState :=
  (lo + s.stream s.idx * (hi - lo), ⟨s.stream, s.idx + 1⟩)

/-- `rng.gen_range(lo, hi)` on `usize` (the vertex-count draw): consume one
draw `u` and return `lo + ⌊u * (hi - lo)⌋`. -/
def gen_range_nat (lo hi : Nat) (s : RngState) : Nat × RngState :=
  (lo + (⌊s.stream s.idx * ((hi : ℚ) - (lo : ℚ))⌋).toNat, ⟨s.stream, s.idx + 1⟩)

/-- `geo::Point::rand` (src/lib.rs:130-137): one x draw then one y draw. -/
def pointRand (parameters : GeoRandParameters) (s : RngState) : Point ℚ × RngState :=
  let x := gen_range parameters.min_x parameters.max_x s
  let y := gen_range parameters.min_y parameters.max_y x.2
  ((x.1, y.1), y.2)

/-- The vertex sampling loop of src/lib.rs:121-123:
`(0..vertices_count).map(|_| geo::Point::rand(rng, &point_parameters))`. -/
def samplePoints (parameters : GeoRandParameters) : Nat → RngState → List (Point ℚ) × RngState
  | 0, s => ([], s)
  | n + 1, s =>
    let p := pointRand parameters s
    let ps := samplePoints parameters n p.2
    (p.1 :: ps.1, ps.2)

/-- A `geo::Polygon`: an exterior ring and a list of interior rings (the
generator always passes `Vec::new()` for the interiors). -/
structure Polygon where
  exterior : List (Point ℚ)
  interiors : List (List (Point ℚ))
deriving DecidableEq

/-- Translation of a single point by `(t_x, t_y)`. -/
def translatePoint (t_x t_y : ℚ) (p : Point ℚ) : Point ℚ :=
  (p.1 + t_x, p.2 + t_y)

/-- `geo`'s `translate` on a polygon: translate every coordinate. -/
def Polygon.translate (p : Polygon) (t_x t_y : ℚ) : Polygon :=
  ⟨p.exterior.map (translatePoint t_x t_y),
   p.interiors.map (fun ring => ring.map (translatePoint t_x t_y))⟩

/-- The draw sequence of `geo::Polygon::rand` (src/lib.rs:92-119) before the
vertex sampling: the four box-corner draws, the two bound orderings, the two
translation draws, the vertex-count draw.  Returns the sub-box parameters,
the translation, the vertex count and the advanced RNG. -/
def polygonRandSetup (parameters : GeoRandParameters) (s : RngState) :
    GeoRandParameters × ℚ × ℚ × Nat × RngState :=
  let b_x1 := gen_range parameters.min_x parameters.max_x s
  let b_y1 := gen_range parameters.min_y parameters.max_y b_x1.2
  let b_x2 := gen_range parameters.min_x parameters.max_x b_y1.2
  let b_y2 := gen_range parameters.min_y parameters.max_y b_x2.2
  let mm_x := if b_x1.1 < b_x2.1 then (b_x1.1, b_x2.1) else (b_x2.1, b_x1.1)
  let mm_y := if b_y1.1 < b_y2.1 then (b_y1.1, b_y2.1) else (b_y2.1, b_y1.1)
  let t_x := gen_range (parameters.min_x - mm_x.1) (parameters.max_x - mm_x.2) b_y2.2
  let t_y := gen_range (parameters.min_y - mm_y.1) (parameters.max_y - mm_y.2) t_x.2
  let vc := gen_range_nat 3 parameters.max_polygon_vertices_count t_y.2
  ({ parameters with min_x := mm_x.1, min_y := mm_y.1, max_x := mm_x.2, max_y := mm_y.2 },
   t_x.1, t_y.1, vc.1, vc.2)

/-- `geo::Polygon::rand` (src/lib.rs:91-127): the setup draws, the vertex
samples, the contour, the translation.  The source's `.unwrap()` on
`points_to_contour` is embedded as `Option.getD []`. -/
def polygonRand (parameters : GeoRandParameters) (s : RngState) : Polygon × RngState :=
  match polygonRandSetup parameters s with
  | (point_parameters, t_x, t_y, vertices_count, s1) =>
    match samplePoints point_parameters vertices_count s1 with
    | (points, s2) =>
      (Polygon.translate ⟨(points_to_contour points).getD [], []⟩ t_x t_y, s2)

/-- The vertex list that `points_to_contour` receives inside
`geo::Polygon::rand` (src/lib.rs:121-125). -/
def polygonRandPoints (parameters : GeoRandParameters) (s : RngState) : List (Point ℚ) :=
  match polygonRandSetup parameters s with
  | (point_parameters, _, _, vertices_count, s1) =>
    (samplePoints point_parameters vertices_count s1).1

/-- The loop guard of src/lib.rs:66-70:
`max_collisions_count.and_then(|m| Some(cc < m)).unwrap_or(true)`. -/
def collisionGuard (parameters : GeoRandParameters) (collisions_count : Nat) : Bool :=
  match parameters.max_collisions_count with
  | some max_collisions_count => collisions_count < max_collisions_count
  | none => true

/-- The `'outer` loop of `geo::MultiPolygon::rand` (src/lib.rs:62-87):
while the collision budget is not exhausted and fewer than
`max_polygons_count` polygons are accepted, generate a candidate; if a
budget is configured and the candidate intersects an accepted polygon,
count a collision and retry, otherwise push the candidate. -/
def multiPolygonRandLoop (intersects : Polygon → Polygon → Bool)
    (parameters : GeoRandParameters) (polygons : List Polygon)
    (collisions_count : Nat) (s : RngState) : List Polygon × RngState :=
  if h : collisionGuard parameters collisions_count = true ∧
      polygons.length < parameters.max_polygons_count then
    let np := polygonRand parameters s
    if h2 : parameters.max_collisions_count.isSome = true ∧
        polygons.any (fun polygon => intersects np.1 polygon) = true then
      multiPolygonRandLoop intersects parameters polygons (collisions_count + 1) np.2
    else
      multiPolygonRandLoop intersects parameters (polygons ++ [np.1]) collisions_count np.2
  else (polygons, s)
  termination_by (parameters.max_polygons_count - polygons.length) +
    (match parameters.max_collisions_count with
     | some m => m - collisions_count
     | none => 0)
  decreasing_by
  · rcases h with ⟨hguard, _⟩
    rcases h2 with ⟨hsome, _⟩
    rcases hm : parameters.max_collisions_count with _ | m
    · rw [hm] at hsome; simp at hsome
    · have hcc : collisions_count < m := by
        unfold collisionGuard at hguard
        rw [hm] at hguard
        simpa using hguard
      simp only [hm]
      omega
  · rcases h with ⟨_, hlen⟩
    have : parameters.max_polygons_count - (polygons ++ [(polygonRand parameters s).1]).length <
        parameters.max_polygons_count - polygons.length := by
      simp only [List.length_append, List.length_cons, List.length_nil]
      omega
    omega

/-- `geo::MultiPolygon::rand` (src/lib.rs:62-88): run the loop from the
empty accepted list and a zero collision counter. -/
def multiPolygonRand (intersects : Polygon → Polygon → Bool)
    (parameters : GeoRandParameters) (s : RngState) : List Polygon × RngState :=
  multiPolygonRandLoop intersects parameters [] 0 s

/-- The `filter` of src/lib.rs:161-163: the input points minus every point
equal in value to the selected leftmost or rightmost point. -/
def remainingList (first_point : Point α) (rest : List (Point α)) : List (Point α) :=
  (first_point :: rest).filter
    (fun point =>
      decide (point ≠ (extremes first_point rest).1 ∧ point ≠ (extremes first_point rest).2))

/-- The `above_list` side of the partition at src/lib.rs:161-164: the
remaining points whose left-turn test against the leftmost-to-rightmost
vector is non-negative. -/
def aboveList (first_point : Point α) (rest : List (Point α)) : List (Point α) :=
  (remainingList first_point rest).filter
    (fun point => left_turn_test
      (psub (extremes first_point rest).2 (extremes first_point rest).1)
      (psub point (extremes first_point rest).1))

/-- The `below_list` side of the partition at src/lib.rs:161-164. -/
def belowList (first_point : Point α) (rest : List (Point α)) : List (Point α) :=
  (remainingList first_point rest).filter
    (fun point => !(left_turn_test
      (psub (extremes first_point rest).2 (extremes first_point rest).1)
      (psub point (extremes first_point rest).1)))

/-- Reference rewriting of `geo::Polygon::rand` with every stream index
written explicitly, used to pin down the order in which the draws are
consumed: box corners at offsets 0-3, translation x,y at offsets 4-5, the
vertex count at offset 6, and vertex `j` at offsets `7+2j, 8+2j`. -/
def polygonRandIndexed (parameters : GeoRandParameters) (s : RngState) : Polygon × RngState :=
  let u := fun k => s.stream (s.idx + k)
  let b_x1 := parameters.min_x + u 0 * (parameters.max_x - parameters.min_x)
  let b_y1 := parameters.min_y + u 1 * (parameters.max_y - parameters.min_y)
  let b_x2 := parameters.min_x + u 2 * (parameters.max_x - parameters.min_x)
  let b_y2 := parameters.min_y + u 3 * (parameters.max_y - parameters.min_y)
  let mm_x := if b_x1 < b_x2 then (b_x1, b_x2) else (b_x2, b_x1)
  let mm_y := if b_y1 < b_y2 then (b_y1, b_y2) else (b_y2, b_y1)
  let t_x := (parameters.min_x - mm_x.1) +
    u 4 * ((parameters.max_x - mm_x.2) - (parameters.min_x - mm_x.1))
  let t_y := (parameters.min_y - mm_y.1) +
    u 5 * ((parameters.max_y - mm_y.2) - (parameters.min_y - mm_y.1))
  let vc := 3 + (⌊u 6 * ((parameters.max_polygon_vertices_count : ℚ) - 3)⌋).toNat
  let points := (List.range vc).map (fun j =>
    (mm_x.1 + u (7 + 2 * j) * (mm_x.2 - mm_x.1),
     mm_y.1 + u (8 + 2 * j) * (mm_y.2 - mm_y.1)))
  (Polygon.translate ⟨(points_to_contour points).getD [], []⟩ t_x t_y,
   ⟨s.stream, s.idx + 7 + 2 * vc⟩)

/-- Modelled from the spec: the draw order the specification asserts for
`Polygon::rand` — box corners x1,y1,x2,y2, then the vertex count, then the
per-vertex draws, with the translation draws last.  Written only to be
compared against `polygonRand`, whose draws follow the source order. -/
def polygonRandSpecOrder (parameters : GeoRandParameters) (s : RngState) : Polygon × RngState :=
  let b_x1 := gen_range parameters.min_x parameters.max_x s
  let b_y1 := gen_range parameters.min_y parameters.max_y b_x1.2
  let b_x2 := gen_range parameters.min_x parameters.max_x b_y1.2
  let b_y2 := gen_range parameters.min_y parameters.max_y b_x2.2
  let mm_x := if b_x1.1 < b_x2.1 then (b_x1.1, b_x2.1) else (b_x2.1, b_x1.1)
  let mm_y := if b_y1.1 < b_y2.1 then (b_y1.1, b_y2.1) else (b_y2.1, b_y1.1)
  let vc := gen_range_nat 3 parameters.max_polygon_vertices_count b_y2.2
  let point_parameters :=
    { parameters with min_x := mm_x.1, min_y := mm_y.1, max_x := mm_x.2, max_y := mm_y.2 }
  let pts := samplePoints point_parameters vc.1 vc.2
  let t_x := gen_range (parameters.min_x - mm_x.1) (parameters.max_x - mm_x.2) pts.2
  let t_y := gen_range (parameters.min_y - mm_y.1) (parameters.max_y - mm_y.2) t_x.2
  (Polygon.translate ⟨(points_to_contour pts.1).getD [], []⟩ t_x.1 t_y.1, t_y.2)

/-- The all-zero draw stream at index 0. -/
def zeroStream : RngState := ⟨fun _ => 0, 0⟩

/-- A draw stream whose only non-zero draw sits at index 4, at index 0. -/
def streamSwap : RngState := ⟨fun i => if i = 4 then 1/2 else 0, 0⟩

/-- Parameters asking for one polygon over `[0,100] × [0,100]`. -/
def paramsOne : GeoRandParameters :=
  { max_polygons_count := 1
    max_polygon_vertices_count := 7
    max_collisions_count := some 100
    min_x := 0
    min_y := 0
    max_x := 100
    max_y := 100 }

/-- `paramsOne` with a collision budget of zero. -/
def paramsZeroBudget : GeoRandParameters :=
  { paramsOne with max_collisions_count := some 0 }

/-- `paramsOne` with no collision budget. -/
def paramsNoBudget : GeoRandParameters :=
  { paramsOne with max_collisions_count := none }

/-- A concrete intersection predicate under which no two polygons ever
intersect. -/
def intersectsNever : Polygon → Polygon → Bool := fun _ _ => false

/-! ### Lemmas about the extremes fold -/

theorem foldl_leftStep_spec (xs : List (Point α)) (a : Point α) :
    ∃ pre suf, a :: xs = pre ++ (xs.foldl leftStep a) :: suf ∧
      (∀ p ∈ pre, (xs.foldl leftStep a).1 < p.1) ∧
      (∀ p ∈ a :: xs, (xs.foldl leftStep a).1 ≤ p.1) := by
  induction xs generalizing a with
  | nil => exact ⟨[], [], rfl, by simp, by simp⟩
  | cons x xs ih =>
    by_cases hx : x.1 < a.1
    · have hstep : leftStep a x = x := by simp [leftStep, hx]
      obtain ⟨pre, suf, hdec, hpre, hmin⟩ := ih x
      simp only [List.foldl_cons, hstep]
      refine ⟨a :: pre, suf, ?_, ?_, ?_⟩
      · rw [List.cons_append, ← hdec]
      · intro p hp
        rcases List.mem_cons.mp hp with rfl | hp2
        · exact lt_of_le_of_lt (hmin x (List.mem_cons_self x xs)) hx
        · exact hpre p hp2
      · intro p hp
        rcases List.mem_cons.mp hp with rfl | hp2
        · exact le_of_lt (lt_of_le_of_lt (hmin x (List.mem_cons_self x xs)) hx)
        · exact hmin p hp2
    · have hstep : leftStep a x = a := by simp [leftStep, hx]
      have hax : a.1 ≤ x.1 := le_of_not_lt hx
      obtain ⟨pre, suf, hdec, hpre, hmin⟩ := ih a
      simp only [List.foldl_cons, hstep]
      cases pre with
      | nil =>
        simp only [List.nil_append] at hdec
        injection hdec with h1 h2
        refine ⟨[], x :: xs, ?_, by simp, ?_⟩
        · rw [List.nil_append, ← h1]
        · intro p hp
          rcases List.mem_cons.mp hp with rfl | hp2
          · rw [← h1]
          · rcases List.mem_cons.mp hp2 with rfl | hp3
            · rw [← h1]; exact hax
            · exact hmin p (List.mem_cons_of_mem a hp3)
      | cons q pre2 =>
        rw [List.cons_append] at hdec
        injection hdec with h1 h2
        have hra : (xs.foldl leftStep a).1 < a.1 := by
          have := hpre q (List.mem_cons_self q pre2)
          rwa [← h1] at this
        refine ⟨a :: x :: pre2, suf, ?_, ?_, ?_⟩
        · rw [List.cons_append, List.cons_append, ← h2]
        · intro p hp
          rcases List.mem_cons.mp hp with rfl | hp2
          · exact hra
          · rcases List.mem_cons.mp hp2 with rfl | hp3
            · exact lt_of_lt_of_le hra hax
            · exact hpre p (List.mem_cons_of_mem q hp3)
        · intro p hp
          rcases List.mem_cons.mp hp with rfl | hp2
          · exact le_of_lt hra
          · rcases List.mem_cons.mp hp2 with rfl | hp3
            · exact le_of_lt (lt_of_lt_of_le hra hax)
            · exact hmin p (List.mem_cons_of_mem a hp3)

theorem foldl_rightStep_spec (xs : List (Point α)) (a : Point α) :
    ∃ pre suf, a :: xs = pre ++ (xs.foldl rightStep a) :: suf ∧
      (∀ p ∈ suf, p.1 < (xs.foldl rightStep a).1) ∧
      (∀ p ∈ a :: xs, p.1 ≤ (xs.foldl rightStep a).1) := by
  induction xs generalizing a with
  | nil => exact ⟨[], [], rfl, by simp, by simp⟩
  | cons x xs ih =>
    by_cases hx : x.1 ≥ a.1
    · have hstep : rightStep a x = x := by simp [rightStep, hx]
      obtain ⟨pre, suf, hdec, hsuf, hmax⟩ := ih x
      simp only [List.foldl_cons, hstep]
      refine ⟨a :: pre, suf, ?_, hsuf, ?_⟩
      · rw [List.cons_append, ← hdec]
      · intro p hp
        rcases List.mem_cons.mp hp with rfl | hp2
        · exact le_trans hx (hmax x (List.mem_cons_self x xs))
        · exact hmax p hp2
    · have hstep : rightStep a x = a := by simp [rightStep, hx]
      have hxa : x.1 < a.1 := lt_of_not_ge hx
      obtain ⟨pre, suf, hdec, hsuf, hmax⟩ := ih a
      simp only [List.foldl_cons, hstep]
      cases pre with
      | nil =>
        simp only [List.nil_append] at hdec
        injection hdec with h1 h2
        refine ⟨[], x :: xs, ?_, ?_, ?_⟩
        · rw [List.nil_append, ← h1]
        · intro p hp
          rcases List.mem_cons.mp hp with rfl | hp2
          · rw [← h1]; exact hxa
          · exact hsuf p (by rwa [← h2])
        · intro p hp
          rcases List.mem_cons.mp hp with rfl | hp2
          · rw [← h1]
          · rcases List.mem_cons.mp hp2 with rfl | hp3
            · rw [← h1]; exact le_of_lt hxa
            · exact hmax p (List.mem_cons_of_mem a hp3)
      | cons q pre2 =>
        rw [List.cons_append] at hdec
        injection hdec with h1 h2
        have haa : a.1 ≤ (xs.foldl rightStep a).1 :=
          hmax a (List.mem_cons_self a xs)
        refine ⟨a :: x :: pre2, suf, ?_, hsuf, ?_⟩
        · rw [List.cons_append, List.cons_append, ← h2]
        · intro p hp
          rcases List.mem_cons.mp hp with rfl | hp2
          · exact haa
          · rcases List.mem_cons.mp hp2 with rfl | hp3
            · exact le_trans (le_of_lt hxa) haa
            · exact hmax p (List.mem_cons_of_mem a hp3)

/-- The simultaneous fold of src/lib.rs:143-159 computes the two
single-accumulator folds componentwise. -/
theorem extremes_eq (first_point : Point α) (rest : List (Point α)) :
    extremes first_point rest =
      (rest.foldl leftStep first_point, rest.foldl rightStep first_point) := by
  unfold extremes
  have step : ∀ (xs : List (Point α)) (a b : Point α),
      xs.foldl (fun acc point => (leftStep acc.1 point, rightStep acc.2 point)) (a, b) =
        (xs.foldl leftStep a, xs.foldl rightStep b) := by
    intro xs
    induction xs with
    | nil => intro a b; rfl
    | cons y ys ihy =>
      intro a b
      simp only [List.foldl_cons]
      exact ihy (leftStep a y) (rightStep b y)
  exact step rest first_point first_point

theorem extremes_fst_spec (first_point : Point α) (rest : List (Point α)) :
    ∃ pre suf, first_point :: rest = pre ++ (extremes first_point rest).1 :: suf ∧
      (∀ p ∈ pre, (extremes first_point rest).1.1 < p.1) ∧
      (∀ p ∈ first_point :: rest, (extremes first_point rest).1.1 ≤ p.1) := by
  rw [extremes_eq]
  exact foldl_leftStep_spec rest first_point

theorem extremes_snd_spec (first_point : Point α) (rest : List (Point α)) :
    ∃ pre suf, first_point :: rest = pre ++ (extremes first_point rest).2 :: suf ∧
      (∀ p ∈ suf, p.1 < (extremes first_point rest).2.1) ∧
      (∀ p ∈ first_point :: rest, p.1 ≤ (extremes first_point rest).2.1) := by
  rw [extremes_eq]
  exact foldl_rightStep_spec rest first_point

theorem extremes_fst_mem (first_point : Point α) (rest : List (Point α)) :
    (extremes first_point rest).1 ∈ first_point :: rest := by
  obtain ⟨pre, suf, hdec, -, -⟩ := extremes_fst_spec first_point rest
  rw [hdec]
  simp

theorem extremes_snd_mem (first_point : Point α) (rest : List (Point α)) :
    (extremes first_point rest).2 ∈ first_point :: rest := by
  obtain ⟨pre, suf, hdec, -, -⟩ := extremes_snd_spec first_point rest
  rw [hdec]
  simp

/-! ### Structure of the contour -/

/-- Unfolding of `points_to_contour` on a non-empty list in terms of the
named above/below lists. -/
theorem points_to_contour_cons (first_point : Point α) (rest : List (Point α)) :
    points_to_contour (first_point :: rest) =
      some ((extremes first_point rest).1 ::
        (List.insertionSort ascX (aboveList first_point rest) ++
          (extremes first_point rest).2 ::
            (List.insertionSort descX (belowList first_point rest) ++
              [(extremes first_point rest).1]))) := by
  unfold points_to_contour aboveList belowList remainingList
  simp only [List.partition_eq_filter_filter, Function.comp_def]

theorem mem_insertionSort_asc {l : List (Point α)} {p : Point α} :
    p ∈ List.insertionSort ascX l ↔ p ∈ l :=
  (List.perm_insertionSort ascX l).mem_iff

theorem mem_insertionSort_desc {l : List (Point α)} {p : Point α} :
    p ∈ List.insertionSort descX l ↔ p ∈ l :=
  (List.perm_insertionSort descX l).mem_iff

theorem mem_of_mem_remainingList {first_point : Point α} {rest : List (Point α)}
    {p : Point α} (hp : p ∈ remainingList first_point rest) : p ∈ first_point :: rest := by
  unfold remainingList at hp
  exact (List.mem_filter.mp hp).1

theorem mem_of_mem_aboveList {first_point : Point α} {rest : List (Point α)}
    {p : Point α} (hp : p ∈ aboveList first_point rest) : p ∈ first_point :: rest := by
  unfold aboveList at hp
  exact mem_of_mem_remainingList (List.mem_filter.mp hp).1

theorem mem_of_mem_belowList {first_point : Point α} {rest : List (Point α)}
    {p : Point α} (hp : p ∈ belowList first_point rest) : p ∈ first_point :: rest := by
  unfold belowList at hp
  exact mem_of_mem_remainingList (List.mem_filter.mp hp).1

/-- Every point of the contour is a point of the input list. -/
theorem mem_of_mem_contour {first_point : Point α} {rest : List (Point α)}
    {c : List (Point α)} (hc : points_to_contour (first_point :: rest) = some c)
    {p : Point α} (hp : p ∈ c) : p ∈ first_point :: rest := by
  rw [points_to_contour_cons] at hc
  injection hc with hc
  rw [← hc] at hp
  rcases List.mem_cons.mp hp with rfl | hp2
  · exact extremes_fst_mem first_point rest
  rcases List.mem_append.mp hp2 with hp3 | hp4
  · exact mem_of_mem_aboveList (mem_insertionSort_asc.mp hp3)
  rcases List.mem_cons.mp hp4 with rfl | hp5
  · exact extremes_snd_mem first_point rest
  rcases List.mem_append.mp hp5 with hp6 | hp7
  · exact mem_of_mem_belowList (mem_insertionSort_desc.mp hp6)
  · rcases List.mem_singleton.mp hp7 with rfl
    exact extremes_fst_mem first_point rest

/-! ### Claims C5 and C10 -/

/-- **C5.** For every non-empty input list, the first point of the contour
returned by `points_to_contour` has x less than or equal to the x of every
input point; the selected leftmost point is the first occurrence winning
ties for smallest x (every input point strictly before it in input order
has strictly larger x, from the strict `<` comparison), and the selected
rightmost point is the last point encountered in input order among those
tied for maximum x (every input point strictly after it has strictly
smaller x, from the `>=` comparison). -/
theorem points_to_contour_extremes (first_point : Point α) (rest : List (Point α)) :
    (∃ c, points_to_contour (first_point :: rest) = some c ∧
      c.head? = some (extremes first_point rest).1) ∧
    (∀ p ∈ first_point :: rest, (extremes first_point rest).1.1 ≤ p.1) ∧
    (∃ pre suf, first_point :: rest = pre ++ (extremes first_point rest).1 :: suf ∧
      ∀ p ∈ pre, (extremes first_point rest).1.1 < p.1) ∧
    (∀ p ∈ first_point :: rest, p.1 ≤ (extremes first_point rest).2.1) ∧
    (∃ pre suf, first_point :: rest = pre ++ (extremes first_point rest).2 :: suf ∧
      ∀ p ∈ suf, p.1 < (extremes first_point rest).2.1) := by
  obtain ⟨preL, sufL, hdecL, hpreL, hminL⟩ := extremes_fst_spec first_point rest
  obtain ⟨preR, sufR, hdecR, hsufR, hmaxR⟩ := extremes_snd_spec first_point rest
  refine ⟨⟨_, points_to_contour_cons first_point rest, rfl⟩, hminL,
    ⟨preL, sufL, hdecL, hpreL⟩, hmaxR, ⟨preR, sufR, hdecR, hsufR⟩⟩

/-- **C10.** For every non-empty input list, the contour returned by
`points_to_contour` begins and ends with the selected leftmost point, and
every point of the contour equals some point of the input list — no point
is fabricated, also in the degenerate cases where duplicates of the
leftmost or rightmost value are filtered out. -/
theorem points_to_contour_mem (first_point : Point α) (rest : List (Point α)) :
    ∃ c, points_to_contour (first_point :: rest) = some c ∧
      c.head? = some (extremes first_point rest).1 ∧
      c.getLast? = some (extremes first_point rest).1 ∧
      ∀ p ∈ c, p ∈ first_point :: rest := by
  refine ⟨_, points_to_contour_cons first_point rest, rfl, ?_, ?_⟩
  · have hsplit : (extremes first_point rest).1 ::
        (List.insertionSort ascX (aboveList first_point rest) ++
          (extremes first_point rest).2 ::
            (List.insertionSort descX (belowList first_point rest) ++
              [(extremes first_point rest).1])) =
        ((extremes first_point rest).1 ::
          (List.insertionSort ascX (aboveList first_point rest) ++
            (extremes first_point rest).2 ::
              List.insertionSort descX (belowList first_point rest))) ++
          [(extremes first_point rest).1] := by
      simp
    rw [hsplit, List.getLast?_concat]
  · intro p hp
    exact mem_of_mem_contour (points_to_contour_cons first_point rest) hp

/-! ### Claim C4: the two-chain structure of the contour -/

/-- **C4.** For every non-empty input list, `points_to_contour` emits the
closed sequence leftmost, then the above set sorted by ascending x, then
rightmost, then the below set sorted by descending x, then the leftmost
again; a point lands in the above set exactly when it differs from the
selected leftmost and rightmost and the 2-D cross product of
`rightmost - leftmost` and `point - leftmost` is non-negative, and in the
below set exactly when that cross product is negative.  In particular the
input `(0,0), (2,3), (4,0), (2,-3)` yields the contour
`(0,0), (2,3), (4,0), (2,-3), (0,0)`. -/
theorem points_to_contour_structure :
    (∀ (α : Type) [LinearOrderedRing α] (first_point : Point α) (rest : List (Point α)),
      ∃ A B, points_to_contour (first_point :: rest) =
          some ((extremes first_point rest).1 ::
            (A ++ (extremes first_point rest).2 :: (B ++ [(extremes first_point rest).1]))) ∧
        A.Perm (aboveList first_point rest) ∧ List.Sorted ascX A ∧
        B.Perm (belowList first_point rest) ∧ List.Sorted descX B ∧
        (∀ p ∈ first_point :: rest,
          (p ∈ aboveList first_point rest ↔
            p ≠ (extremes first_point rest).1 ∧ p ≠ (extremes first_point rest).2 ∧
              0 ≤ ((extremes first_point rest).2.1 - (extremes first_point rest).1.1) *
                    (p.2 - (extremes first_point rest).1.2) -
                  ((extremes first_point rest).2.2 - (extremes first_point rest).1.2) *
                    (p.1 - (extremes first_point rest).1.1))) ∧
        (∀ p ∈ first_point :: rest,
          (p ∈ belowList first_point rest ↔
            p ≠ (extremes first_point rest).1 ∧ p ≠ (extremes first_point rest).2 ∧
              ((extremes first_point rest).2.1 - (extremes first_point rest).1.1) *
                    (p.2 - (extremes first_point rest).1.2) -
                  ((extremes first_point rest).2.2 - (extremes first_point rest).1.2) *
                    (p.1 - (extremes first_point rest).1.1) < 0))) ∧
    points_to_contour [((0 : ℤ), (0 : ℤ)), (2, 3), (4, 0), (2, -3)] =
      some [(0, 0), (2, 3), (4, 0), (2, -3), (0, 0)] := by
  constructor
  · intro α _ first_point rest
    refine ⟨List.insertionSort ascX (aboveList first_point rest),
      List.insertionSort descX (belowList first_point rest),
      points_to_contour_cons first_point rest,
      List.perm_insertionSort ascX _, List.sorted_insertionSort ascX _,
      List.perm_insertionSort descX _, List.sorted_insertionSort descX _, ?_, ?_⟩
    · intro p hp
      unfold aboveList remainingList
      simp only [List.mem_filter, left_turn_test, psub, decide_eq_true_eq, ge_iff_le, hp,
        true_and, and_assoc]
    · intro p hp
      unfold belowList remainingList
      simp only [List.mem_filter, left_turn_test, psub, decide_eq_true_eq, ge_iff_le, hp,
        true_and, and_assoc, Bool.not_eq_true', decide_eq_false_iff_not, not_le]
  · decide

/-! ### Claim C9: failure exactly on the empty input -/

/-- **C9.** `points_to_contour` returns no contour exactly when the input
point list is empty; the point list built inside `geo::Polygon::rand`
always has at least 3 points (the vertex count is drawn from
`[3, max_polygon_vertices_count)`), so the contour construction it unwraps
always returns a contour. -/
theorem points_to_contour_none_iff :
    (∀ (α : Type) [LinearOrderedRing α] (points : List (Point α)),
      points_to_contour points = none ↔ points = []) ∧
    (∀ (parameters : GeoRandParameters) (s : RngState),
      3 < parameters.max_polygon_vertices_count →
        3 ≤ (polygonRandPoints parameters s).length ∧
        (points_to_contour (polygonRandPoints parameters s)).isSome = true) := by
  have hnone : ∀ (α : Type) [LinearOrderedRing α] (points : List (Point α)),
      points_to_contour points = none ↔ points = [] := by
    intro α _ points
    cases points with
    | nil => simp [points_to_contour]
    | cons first_point rest => simp [points_to_contour_cons]
  refine ⟨hnone, ?_⟩
  intro parameters s _
  have hlen : ∀ (pp : GeoRandParameters) (n : Nat) (st : RngState),
      (samplePoints pp n st).1.length = n := by
    intro pp n
    induction n with
    | zero => intro st; rfl
    | succ k ih => intro st; simp [samplePoints, ih]
  have hvc : 3 ≤ (polygonRandPoints parameters s).length := by
    unfold polygonRandPoints polygonRandSetup
    simp only [gen_range, gen_range_nat, hlen]
    exact le_self_add
  refine ⟨hvc, ?_⟩
  cases hpts : polygonRandPoints parameters s with
  | nil => rw [hpts] at hvc; simp at hvc
  | cons first_point rest => simp [points_to_contour_cons]

/-! ### Claim C2: the length of the contour -/

theorem length_filter_bool_split {β : Type} (p : β → Bool) (l : List β) :
    (l.filter p).length + (l.filter (fun x => !(p x))).length = l.length := by
  induction l with
  | nil => rfl
  | cons x xs ih =>
    cases hx : p x <;> simp [List.filter_cons, hx, ← ih] <;> omega

theorem length_filter_add_countP (a b : Point α) (l : List (Point α)) :
    (l.filter (fun p => decide (p ≠ a ∧ p ≠ b))).length +
      l.countP (fun p => decide (p = a ∨ p = b)) = l.length := by
  induction l with
  | nil => rfl
  | cons x xs ih =>
    by_cases hx : x = a ∨ x = b
    · have hcond : ¬(¬x = a ∧ ¬x = b) := by tauto
      simp [List.filter_cons, List.countP_cons, hx, hcond] at ih ⊢
      omega
    · push_neg at hx
      simp [List.filter_cons, List.countP_cons, hx.1, hx.2] at ih ⊢
      omega

/-- **C2 (amended).** For every non-empty input list of `N` points, the
contour has exactly `N + 3 - k` points, where `k` is the number of input
points equal in value to the selected leftmost or rightmost point (the
filter of src/lib.rs:163 removes exactly those, and the chain re-adds the
two extremes and the closing duplicate); in particular the contour has
exactly `N + 1` points precisely when `k = 2` — two distinct extremal
values each occurring once, or a shared extremal value occurring exactly
twice.  The first element always equals the last element.  (The unamended
claim asserts `N + 1` for all input contents; it fails whenever `k ≠ 2`,
e.g. on a single point, where `k = 1`.) -/
theorem points_to_contour_length {α : Type} [LinearOrderedRing α]
    (first_point : Point α) (rest : List (Point α)) :
    ∃ c, points_to_contour (first_point :: rest) = some c ∧
      c.length + (first_point :: rest).countP
          (fun p => decide (p = (extremes first_point rest).1 ∨
            p = (extremes first_point rest).2)) =
        (first_point :: rest).length + 3 ∧
      (c.length = (first_point :: rest).length + 1 ↔
        (first_point :: rest).countP
          (fun p => decide (p = (extremes first_point rest).1 ∨
            p = (extremes first_point rest).2)) = 2) ∧
      c.head? = c.getLast? := by
  obtain ⟨c, hc, hhead, hlast, -⟩ := points_to_contour_mem first_point rest
  have hlen : c.length + (first_point :: rest).countP
      (fun p => decide (p = (extremes first_point rest).1 ∨
        p = (extremes first_point rest).2)) =
      (first_point :: rest).length + 3 := by
    rw [points_to_contour_cons] at hc
    injection hc with hc
    have hrem : (remainingList first_point rest).length +
        (first_point :: rest).countP
          (fun p => decide (p = (extremes first_point rest).1 ∨
            p = (extremes first_point rest).2)) =
        (first_point :: rest).length := by
      unfold remainingList
      exact length_filter_add_countP _ _ _
    have hsplit : (aboveList first_point rest).length + (belowList first_point rest).length =
        (remainingList first_point rest).length := by
      unfold aboveList belowList
      exact length_filter_bool_split _ _
    have hlenA : (List.insertionSort ascX (aboveList first_point rest)).length =
        (aboveList first_point rest).length :=
      (List.perm_insertionSort ascX _).length_eq
    have hlenB : (List.insertionSort descX (belowList first_point rest)).length =
        (belowList first_point rest).length :=
      (List.perm_insertionSort descX _).length_eq
    rw [← hc]
    simp only [List.length_cons] at hrem
    simp only [List.length_cons, List.length_append, List.length_singleton, List.length_nil,
      hlenA, hlenB]
    omega
  refine ⟨c, hc, hlen, ?_, by rw [hhead, hlast]⟩
  omega

/-- **C2 counterexample.** On the single-point input `[(0,0)]` (`N = 1`)
the contour has 3 points, not `N + 1 = 2`: the claim fails as stated for
arbitrary input contents. -/
theorem points_to_contour_length_cex :
    points_to_contour [((0 : ℤ), (0 : ℤ))] = some [(0, 0), (0, 0), (0, 0)] ∧
    ([((0 : ℤ), (0 : ℤ))].length + 1 ≠
      ([((0 : ℤ), (0 : ℤ)), (0, 0), (0, 0)]).length) := by
  decide

/-- **C2 witness.** The amended statement applied to the concrete input
`[(0,0), (0,0)]`: the shared extremal value occurs exactly twice, so this
input does reach the `N + 1` length. -/
theorem points_to_contour_length_witness :
    ∃ c, points_to_contour [((0 : ℤ), (0 : ℤ)), (0, 0)] = some c ∧
      c.length + ([((0 : ℤ), (0 : ℤ)), (0, 0)]).countP
          (fun p => decide (p = (extremes ((0 : ℤ), (0 : ℤ)) [(0, 0)]).1 ∨
            p = (extremes ((0 : ℤ), (0 : ℤ)) [(0, 0)]).2)) =
        ([((0 : ℤ), (0 : ℤ)), (0, 0)]).length + 3 ∧
      (c.length = ([((0 : ℤ), (0 : ℤ)), (0, 0)]).length + 1 ↔
        ([((0 : ℤ), (0 : ℤ)), (0, 0)]).countP
          (fun p => decide (p = (extremes ((0 : ℤ), (0 : ℤ)) [(0, 0)]).1 ∨
            p = (extremes ((0 : ℤ), (0 : ℤ)) [(0, 0)]).2)) = 2) ∧
      c.head? = c.getLast? :=
  points_to_contour_length ((0 : ℤ), (0 : ℤ)) [(0, 0)]

/-! ### Bounds of the affine draws -/

theorem affine_mem_le (lo hi u : ℚ) (h0 : 0 ≤ u) (h1 : u ≤ 1) (hle : lo ≤ hi) :
    lo ≤ lo + u * (hi - lo) ∧ lo + u * (hi - lo) ≤ hi := by
  constructor <;>
    nlinarith [mul_nonneg h0 (sub_nonneg.mpr hle), mul_le_of_le_one_left (sub_nonneg.mpr hle) h1]

theorem affine_mem_lt (lo hi u : ℚ) (h0 : 0 ≤ u) (h1 : u < 1) (hlt : lo < hi) :
    lo ≤ lo + u * (hi - lo) ∧ lo + u * (hi - lo) < hi := by
  constructor
  · nlinarith [mul_nonneg h0 (sub_nonneg.mpr hlt.le)]
  · nlinarith [mul_lt_mul_of_pos_right h1 (sub_pos.mpr hlt)]

/-- One axis of `polygonRandSetup`: two in-range corner draws ordered into
a sub-interval, and the translation draw mapped onto
`[lo - mn, hi - mx)`. -/
theorem setup_axis_spec (lo hi v1 v2 u : ℚ) (h1l : lo ≤ v1) (h1r : v1 < hi)
    (h2l : lo ≤ v2) (h2r : v2 < hi) (hu0 : 0 ≤ u) (hu1 : u < 1) :
    lo ≤ (if v1 < v2 then (v1, v2) else (v2, v1)).1 ∧
      (if v1 < v2 then (v1, v2) else (v2, v1)).1 ≤
        (if v1 < v2 then (v1, v2) else (v2, v1)).2 ∧
      (if v1 < v2 then (v1, v2) else (v2, v1)).2 ≤ hi ∧
      lo - (if v1 < v2 then (v1, v2) else (v2, v1)).1 ≤
        lo - (if v1 < v2 then (v1, v2) else (v2, v1)).1 +
          u * (hi - (if v1 < v2 then (v1, v2) else (v2, v1)).2 -
            (lo - (if v1 < v2 then (v1, v2) else (v2, v1)).1)) ∧
      lo - (if v1 < v2 then (v1, v2) else (v2, v1)).1 +
          u * (hi - (if v1 < v2 then (v1, v2) else (v2, v1)).2 -
            (lo - (if v1 < v2 then (v1, v2) else (v2, v1)).1)) ≤
        hi - (if v1 < v2 then (v1, v2) else (v2, v1)).2 := by
  split_ifs with h
  · dsimp only
    have ha := affine_mem_le (lo - v1) (hi - v2) u hu0 hu1.le (by linarith)
    exact ⟨by linarith, by linarith, by linarith, ha.1, ha.2⟩
  · dsimp only
    have ha := affine_mem_le (lo - v2) (hi - v1) u hu0 hu1.le (by linarith)
    exact ⟨by linarith, by linarith, by linarith, ha.1, ha.2⟩

/-- The draws of `polygonRandSetup` under a uniform stream: the sub-box is
nested inside the overall region and the translation offsets keep the
sub-box inside the region. -/
theorem polygonRandSetup_spec (parameters : GeoRandParameters) (s : RngState)
    (hs : s.uniform) (hx : parameters.min_x < parameters.max_x)
    (hy : parameters.min_y < parameters.max_y) :
    ∃ mn_x mx_x mn_y mx_y t_x t_y vc,
      polygonRandSetup parameters s =
        ({ parameters with min_x := mn_x, min_y := mn_y, max_x := mx_x, max_y := mx_y },
         t_x, t_y, vc, ⟨s.stream, s.idx + 7⟩) ∧
      parameters.min_x ≤ mn_x ∧ mn_x ≤ mx_x ∧ mx_x ≤ parameters.max_x ∧
      parameters.min_y ≤ mn_y ∧ mn_y ≤ mx_y ∧ mx_y ≤ parameters.max_y ∧
      parameters.min_x - mn_x ≤ t_x ∧ t_x ≤ parameters.max_x - mx_x ∧
      parameters.min_y - mn_y ≤ t_y ∧ t_y ≤ parameters.max_y - mx_y := by
  unfold polygonRandSetup
  simp only [gen_range, gen_range_nat]
  have h0 := hs s.idx
  have h1 := hs (s.idx + 1)
  have h2 := hs (s.idx + 1 + 1)
  have h3 := hs (s.idx + 1 + 1 + 1)
  have h4 := hs (s.idx + 1 + 1 + 1 + 1)
  have h5 := hs (s.idx + 1 + 1 + 1 + 1 + 1)
  have hxspec := setup_axis_spec parameters.min_x parameters.max_x _ _ _
    (affine_mem_lt _ _ _ h0.1 h0.2 hx).1 (affine_mem_lt _ _ _ h0.1 h0.2 hx).2
    (affine_mem_lt _ _ _ h2.1 h2.2 hx).1 (affine_mem_lt _ _ _ h2.1 h2.2 hx).2
    h4.1 h4.2
  have hyspec := setup_axis_spec parameters.min_y parameters.max_y _ _ _
    (affine_mem_lt _ _ _ h1.1 h1.2 hy).1 (affine_mem_lt _ _ _ h1.1 h1.2 hy).2
    (affine_mem_lt _ _ _ h3.1 h3.2 hy).1 (affine_mem_lt _ _ _ h3.1 h3.2 hy).2
    h5.1 h5.2
  exact ⟨_, _, _, _, _, _, _, rfl, hxspec.1, hxspec.2.1, hxspec.2.2.1,
    hyspec.1, hyspec.2.1, hyspec.2.2.1,
    hxspec.2.2.2.1, hxspec.2.2.2.2, hyspec.2.2.2.1, hyspec.2.2.2.2⟩

/-- Every point sampled by the vertex loop lies in the sampling box. -/
theorem samplePoints_bounds (pp : GeoRandParameters) (n : Nat) :
    ∀ st : RngState, (∀ i, 0 ≤ st.stream i ∧ st.stream i < 1) →
      pp.min_x ≤ pp.max_x → pp.min_y ≤ pp.max_y →
      ∀ p ∈ (samplePoints pp n st).1,
        pp.min_x ≤ p.1 ∧ p.1 ≤ pp.max_x ∧ pp.min_y ≤ p.2 ∧ p.2 ≤ pp.max_y := by
  induction n with
  | zero => intro st _ _ _ p hp; simp [samplePoints] at hp
  | succ k ih =>
    intro st hst hx hy p hp
    simp only [samplePoints, pointRand, gen_range] at hp
    rcases List.mem_cons.mp hp with rfl | hp2
    · have hx0 := hst st.idx
      have hy0 := hst (st.idx + 1)
      have hax := affine_mem_le pp.min_x pp.max_x _ hx0.1 hx0.2.le hx
      have hay := affine_mem_le pp.min_y pp.max_y _ hy0.1 hy0.2.le hy
      exact ⟨hax.1, hax.2, hay.1, hay.2⟩
    · exact ih ⟨st.stream, st.idx + 1 + 1⟩ hst hx hy p hp2

/-- The vertex loop written with explicit stream indices: vertex `j` draws
its x at offset `2j` and its y at offset `2j+1` from the current index, and
the loop advances the index by `2n`. -/
theorem samplePoints_eq (pp : GeoRandParameters) (n : Nat) :
    ∀ st : RngState, samplePoints pp n st =
      ((List.range n).map (fun j =>
        (pp.min_x + st.stream (st.idx + 2 * j) * (pp.max_x - pp.min_x),
         pp.min_y + st.stream (st.idx + 2 * j + 1) * (pp.max_y - pp.min_y))),
       ⟨st.stream, st.idx + 2 * n⟩) := by
  induction n with
  | zero => intro st; simp [samplePoints]
  | succ k ih =>
    intro st
    simp only [samplePoints, pointRand, gen_range, ih]
    rw [List.range_succ_eq_map, List.map_cons, List.map_map]
    refine Prod.ext ?_ ?_
    · dsimp only
      congr 1
      refine List.map_congr_left ?_
      intro j hj
      have e1 : st.idx + 1 + 1 + 2 * j = st.idx + 2 * (j + 1) := by omega
      have e2 : st.idx + 1 + 1 + 2 * j + 1 = st.idx + 2 * (j + 1) + 1 := by omega
      simp only [Function.comp_def, Nat.succ_eq_add_one, e1, e2]
    · dsimp only
      congr 1
      omega

/-! ### Claim C6: the generated polygon stays inside the region -/

/-- **C6.** Under the preconditions `min_x < max_x`, `min_y < max_y` and
`max_polygon_vertices_count > 3`, every vertex coordinate of the returned
translated polygon lies within `[min_x, max_x]` on the x axis and
`[min_y, max_y]` on the y axis, for every uniform draw stream. -/
theorem polygonRand_bounds (parameters : GeoRandParameters) (s : RngState)
    (hs : s.uniform) (hx : parameters.min_x < parameters.max_x)
    (hy : parameters.min_y < parameters.max_y)
    (hv : 3 < parameters.max_polygon_vertices_count) :
    ∀ p ∈ (polygonRand parameters s).1.exterior,
      parameters.min_x ≤ p.1 ∧ p.1 ≤ parameters.max_x ∧
      parameters.min_y ≤ p.2 ∧ p.2 ≤ parameters.max_y := by
  obtain ⟨mn_x, mx_x, mn_y, mx_y, t_x, t_y, vc, hsetup,
    h1, h2, h3, h4, h5, h6, h7, h8, h9, h10⟩ :=
    polygonRandSetup_spec parameters s hs hx hy
  intro p hp
  unfold polygonRand at hp
  rw [hsetup] at hp
  dsimp only at hp
  rcases hpts : samplePoints
      { parameters with min_x := mn_x, min_y := mn_y, max_x := mx_x, max_y := mx_y }
      vc ⟨s.stream, s.idx + 7⟩ with ⟨points, s2⟩
  rw [hpts] at hp
  dsimp only at hp
  simp only [Polygon.translate] at hp
  obtain ⟨q, hq, rfl⟩ := List.mem_map.mp hp
  have hqmem : q ∈ points := by
    cases hc : points_to_contour points with
    | none => rw [hc] at hq; simp at hq
    | some c =>
      rw [hc] at hq
      simp only [Option.getD_some] at hq
      cases points with
      | nil => rw [points_to_contour] at hc; cases hc
      | cons first_point rest => exact mem_of_mem_contour hc hq
  have hqb := samplePoints_bounds
    { parameters with min_x := mn_x, min_y := mn_y, max_x := mx_x, max_y := mx_y }
    vc ⟨s.stream, s.idx + 7⟩ hs h2 h5 q (by rw [hpts]; exact hqmem)
  dsimp only [translatePoint]
  exact ⟨by linarith [hqb.1], by linarith [hqb.2.1],
    by linarith [hqb.2.2.1], by linarith [hqb.2.2.2]⟩

/-- **C6 witness.** The bounds theorem applied to the concrete parameters
`paramsOne` and the all-zero stream. -/
theorem polygonRand_bounds_witness :
    paramsOne.min_x < paramsOne.max_x ∧ paramsOne.min_y < paramsOne.max_y ∧
    3 < paramsOne.max_polygon_vertices_count ∧
    ∀ p ∈ (polygonRand paramsOne zeroStream).1.exterior,
      paramsOne.min_x ≤ p.1 ∧ p.1 ≤ paramsOne.max_x ∧
      paramsOne.min_y ≤ p.2 ∧ p.2 ≤ paramsOne.max_y :=
  ⟨by norm_num [paramsOne], by norm_num [paramsOne], by norm_num [paramsOne],
   polygonRand_bounds paramsOne zeroStream
     (fun i => by simp [zeroStream])
     (by norm_num [paramsOne]) (by norm_num [paramsOne]) (by norm_num [paramsOne])⟩

/-! ### Claim C3: the order of the random draws -/

/-- **C3 (amended).** In one polygon generation the draws are consumed in
exactly this order: the four box-corner draws x1, y1, x2, y2 (stream
offsets 0-3), then the two translation draws x, y (offsets 4-5), then the
vertex-count draw (offset 6), and then the per-vertex x, y draws (offsets
`7+2j, 8+2j` for vertex `j`).  Stated as: `polygonRand` coincides with its
rewriting `polygonRandIndexed`, in which every draw reads the stream at
those explicit offsets.  (The claim as frozen places the vertex-count draw
before the translation draws; the source draws the translation first, at
src/lib.rs:109-111.) -/
theorem polygonRand_draw_order (parameters : GeoRandParameters) (s : RngState) :
    polygonRand parameters s = polygonRandIndexed parameters s := by
  unfold polygonRand polygonRandSetup polygonRandIndexed
  simp only [gen_range, gen_range_nat, samplePoints_eq]
  have e1 : ∀ j : Nat, s.idx + (7 + 2 * j) = s.idx + 2 * j + 7 := fun j => by omega
  have e2 : ∀ j : Nat, s.idx + (8 + 2 * j) = s.idx + 2 * j + 8 := fun j => by omega
  simp +arith [Nat.cast_ofNat, e1, e2]

/-- **C3 counterexample.** Under the spec's claimed order the draw at
stream index 4 would be the vertex-count draw and the translation draws
would come last; in the source the draw at index 4 is the x translation.
On `streamSwap` (whose only non-zero draw is at index 4) the two orders
produce different polygons: the source order translates the (degenerate)
sampled box by 50 on the x axis, the claimed order leaves it at 0. -/
theorem polygonRand_draw_order_cex :
    polygonRand paramsOne streamSwap ≠ polygonRandSpecOrder paramsOne streamSwap := by
  intro hcontra
  have h1 : (polygonRand paramsOne streamSwap).1.exterior.map Prod.fst = [50, 50, 50] := by
    norm_num [polygonRand, polygonRandSetup, gen_range, gen_range_nat, samplePoints, pointRand,
      paramsOne, streamSwap, points_to_contour, extremes, leftStep, rightStep, remainingList,
      left_turn_test, psub, Polygon.translate, translatePoint, List.partition_eq_filter_filter,
      List.filter, List.insertionSort]
  have h2 : (polygonRandSpecOrder paramsOne streamSwap).1.exterior.map Prod.fst = [0, 0, 0] := by
    norm_num [polygonRandSpecOrder, gen_range, gen_range_nat, samplePoints, pointRand,
      paramsOne, streamSwap, points_to_contour, extremes, leftStep, rightStep, remainingList,
      left_turn_test, psub, Polygon.translate, translatePoint, List.partition_eq_filter_filter,
      List.filter, List.insertionSort]
  rw [hcontra, h2] at h1
  norm_num at h1

/-! ### Claim C1: behaviour with a zero collision budget -/

/-- **C1 (amended).** With `max_collisions_count = Some(0)` the loop guard
`collisions_count < budget` is false before the first iteration: no
candidate polygon is ever generated, the RNG is not consumed, and the
generator returns the empty MultiPolygon.  (The frozen claim asserts that
candidates are still generated and accepted until the first intersection;
the loop at src/lib.rs:66-70 never enters its body when the budget is 0.) -/
theorem multiPolygonRand_zero_budget (intersects : Polygon → Polygon → Bool)
    (parameters : GeoRandParameters) (s : RngState)
    (h0 : parameters.max_collisions_count = some 0) :
    multiPolygonRand intersects parameters s = ([], s) := by
  unfold multiPolygonRand
  rw [multiPolygonRandLoop]
  simp [collisionGuard, h0]

/-- **C1 witness.** The amended statement at the concrete zero-budget
parameters and the all-zero stream. -/
theorem multiPolygonRand_zero_budget_witness :
    paramsZeroBudget.max_collisions_count = some 0 ∧
    multiPolygonRand intersectsNever paramsZeroBudget zeroStream = ([], zeroStream) :=
  ⟨rfl, multiPolygonRand_zero_budget intersectsNever paramsZeroBudget zeroStream rfl⟩

/-- **C1 counterexample.** One polygon is requested, the budget is zero and
the intersection predicate never holds, so no candidate can ever intersect
an accepted polygon; the claim predicts candidates are generated and
accepted until a first intersection (hence one polygon here), but the
source returns the empty MultiPolygon without generating any candidate. -/
theorem multiPolygonRand_zero_budget_cex :
    multiPolygonRand intersectsNever paramsZeroBudget zeroStream = ([], zeroStream) ∧
    paramsZeroBudget.max_polygons_count = 1 ∧
    paramsZeroBudget.max_collisions_count = some 0 := by
  refine ⟨?_, rfl, rfl⟩
  unfold multiPolygonRand
  rw [multiPolygonRandLoop]
  simp [collisionGuard, paramsZeroBudget, paramsOne]

/-! ### Claims C7 and C8: the collision-avoidance loop -/

/-- Invariant of the loop when a collision budget is configured: the
accepted list stays pairwise non-intersecting (each accepted polygon was
checked against all earlier ones) and never exceeds the target count. -/
theorem multiPolygonRandLoop_pairwise (intersects : Polygon → Polygon → Bool)
    (parameters : GeoRandParameters)
    (hsome : parameters.max_collisions_count.isSome = true) :
    ∀ (polygons : List Polygon) (collisions_count : Nat) (s : RngState),
      polygons.Pairwise (fun a b => intersects b a = false) →
      polygons.length ≤ parameters.max_polygons_count →
      (multiPolygonRandLoop intersects parameters polygons collisions_count s).1.Pairwise
          (fun a b => intersects b a = false) ∧
        (multiPolygonRandLoop intersects parameters polygons collisions_count s).1.length ≤
          parameters.max_polygons_count := by
  intro polygons collisions_count s
  induction polygons, collisions_count, s using multiPolygonRandLoop.induct intersects parameters with
  | case1 polygons collisions_count s h np h2 ih =>
    intro hpair hlen
    rw [multiPolygonRandLoop]
    simp only [dif_pos h]
    rw [dif_pos h2]
    exact ih hpair hlen
  | case2 polygons collisions_count s h np h2 ih =>
    intro hpair hlen
    rw [multiPolygonRandLoop]
    simp only [dif_pos h]
    rw [dif_neg h2]
    have hany : polygons.any (fun polygon => intersects np.1 polygon) = false := by
      rcases hx : polygons.any (fun polygon => intersects np.1 polygon) with _ | _
      · rfl
      · exact absurd ⟨hsome, hx⟩ h2
    refine ih ?_ ?_
    · rw [List.pairwise_append]
      refine ⟨hpair, List.pairwise_singleton _ _, ?_⟩
      intro a ha b hb
      rw [List.mem_singleton.mp hb]
      have := List.any_eq_false.mp hany a ha
      simpa using this
    · simp only [List.length_append, List.length_cons, List.length_nil]
      omega
  | case3 polygons collisions_count s h =>
    intro hpair hlen
    rw [multiPolygonRandLoop]
    rw [dif_neg h]
    exact ⟨hpair, hlen⟩

/-- **C7.** Whenever `max_collisions_count` is `Some(_)` and the
intersection predicate is symmetric, the returned MultiPolygon contains no
two intersecting members and at most `max_polygons_count` members. -/
theorem multiPolygonRand_no_intersections (intersects : Polygon → Polygon → Bool)
    (parameters : GeoRandParameters) (s : RngState) (m : Nat)
    (hm : parameters.max_collisions_count = some m)
    (hsymm : ∀ p q, intersects p q = intersects q p) :
    (multiPolygonRand intersects parameters s).1.Pairwise
        (fun a b => intersects a b = false) ∧
      (multiPolygonRand intersects parameters s).1.length ≤
        parameters.max_polygons_count := by
  have hsome : parameters.max_collisions_count.isSome = true := by rw [hm]; rfl
  obtain ⟨hp, hl⟩ := multiPolygonRandLoop_pairwise intersects parameters hsome [] 0 s
    List.Pairwise.nil (by simp)
  refine ⟨?_, hl⟩
  refine hp.imp ?_
  intro a b hab
  rw [hsymm]
  exact hab

/-- **C7 witness.** The theorem at the concrete parameters `paramsOne`
(budget 100), the never-intersecting predicate and the all-zero stream. -/
theorem multiPolygonRand_no_intersections_witness :
    paramsOne.max_collisions_count = some 100 ∧
    (∀ p q, intersectsNever p q = intersectsNever q p) ∧
    (multiPolygonRand intersectsNever paramsOne zeroStream).1.Pairwise
        (fun a b => intersectsNever a b = false) ∧
      (multiPolygonRand intersectsNever paramsOne zeroStream).1.length ≤
        paramsOne.max_polygons_count :=
  ⟨rfl, fun _ _ => rfl,
   (multiPolygonRand_no_intersections intersectsNever paramsOne zeroStream 100 rfl
      (fun _ _ => rfl)).1,
   (multiPolygonRand_no_intersections intersectsNever paramsOne zeroStream 100 rfl
      (fun _ _ => rfl)).2⟩

/-- Without a collision budget the loop always pushes, so the accepted
list grows to exactly the target count. -/
theorem multiPolygonRandLoop_none_length (intersects : Polygon → Polygon → Bool)
    (parameters : GeoRandParameters)
    (hnone : parameters.max_collisions_count = none) :
    ∀ (polygons : List Polygon) (collisions_count : Nat) (s : RngState),
      polygons.length ≤ parameters.max_polygons_count →
      (multiPolygonRandLoop intersects parameters polygons collisions_count s).1.length =
        parameters.max_polygons_count := by
  intro polygons collisions_count s
  induction polygons, collisions_count, s using multiPolygonRandLoop.induct intersects parameters with
  | case1 polygons collisions_count s h np h2 ih =>
    intro hlen
    exact absurd (by rw [hnone] at h2; exact h2.1) (by simp)
  | case2 polygons collisions_count s h np h2 ih =>
    intro hlen
    rw [multiPolygonRandLoop]
    simp only [dif_pos h]
    rw [dif_neg h2]
    refine ih ?_
    simp only [List.length_append, List.length_cons, List.length_nil]
    omega
  | case3 polygons collisions_count s h =>
    intro hlen
    rw [multiPolygonRandLoop]
    rw [dif_neg h]
    have hguard : collisionGuard parameters collisions_count = true := by
      unfold collisionGuard
      rw [hnone]
    have : ¬ polygons.length < parameters.max_polygons_count := by
      intro hlt
      exact h ⟨hguard, hlt⟩
    show polygons.length = parameters.max_polygons_count
    omega

/-- Without a collision budget the intersection predicate is never
consulted: the loop computes the same result for any two predicates. -/
theorem multiPolygonRandLoop_none_irrel (i1 i2 : Polygon → Polygon → Bool)
    (parameters : GeoRandParameters)
    (hnone : parameters.max_collisions_count = none) :
    ∀ (polygons : List Polygon) (collisions_count : Nat) (s : RngState),
      multiPolygonRandLoop i1 parameters polygons collisions_count s =
        multiPolygonRandLoop i2 parameters polygons collisions_count s := by
  intro polygons collisions_count s
  induction polygons, collisions_count, s using multiPolygonRandLoop.induct i1 parameters with
  | case1 polygons collisions_count s h np h2 ih =>
    exact absurd (by rw [hnone] at h2; exact h2.1) (by simp)
  | case2 polygons collisions_count s h np h2 ih =>
    rw [multiPolygonRandLoop, multiPolygonRandLoop]
    simp only [dif_pos h]
    rw [dif_neg h2]
    rw [dif_neg (by rw [hnone]; simp :
      ¬ (parameters.max_collisions_count.isSome = true ∧
        polygons.any (fun polygon => i2 (polygonRand parameters s).1 polygon) = true))]
    exact ih
  | case3 polygons collisions_count s h =>
    rw [multiPolygonRandLoop, multiPolygonRandLoop]
    rw [dif_neg h, dif_neg h]

/-- **C8.** With `max_collisions_count = None` the intersection check is
never performed — the result does not depend on the intersection
predicate — and the returned MultiPolygon contains exactly
`max_polygons_count` polygons. -/
theorem multiPolygonRand_unbounded_budget (i1 i2 : Polygon → Polygon → Bool)
    (parameters : GeoRandParameters) (s : RngState)
    (hnone : parameters.max_collisions_count = none) :
    (multiPolygonRand i1 parameters s).1.length = parameters.max_polygons_count ∧
      multiPolygonRand i1 parameters s = multiPolygonRand i2 parameters s :=
  ⟨multiPolygonRandLoop_none_length i1 parameters hnone [] 0 s (by simp),
   multiPolygonRandLoop_none_irrel i1 i2 parameters hnone [] 0 s⟩

/-- **C8 witness.** The theorem at the concrete parameters
`paramsNoBudget`, the all-zero stream, and two different predicates. -/
theorem multiPolygonRand_unbounded_budget_witness :
    paramsNoBudget.max_collisions_count = none ∧
    (multiPolygonRand intersectsNever paramsNoBudget zeroStream).1.length =
      paramsNoBudget.max_polygons_count ∧
    multiPolygonRand intersectsNever paramsNoBudget zeroStream =
      multiPolygonRand (fun _ _ => true) paramsNoBudget zeroStream :=
  ⟨rfl,
   (multiPolygonRand_unbounded_budget intersectsNever (fun _ _ => true)
      paramsNoBudget zeroStream rfl).1,
   (multiPolygonRand_unbounded_budget intersectsNever (fun _ _ => true)
      paramsNoBudget zeroStream rfl).2⟩

/-- **C4 witness.** The membership characterisation applied at the
concrete input of the spec's example: `(2,3)` lands in the above set. -/
theorem points_to_contour_structure_witness :
    ((2 : ℤ), (3 : ℤ)) ∈ aboveList ((0 : ℤ), (0 : ℤ)) [(2, 3), (4, 0), (2, -3)] := by
  obtain ⟨A, B, hc, hA, hsA, hB, hsB, habove, hbelow⟩ :=
    points_to_contour_structure.1 ℤ ((0 : ℤ), (0 : ℤ)) [(2, 3), (4, 0), (2, -3)]
  exact (habove ((2 : ℤ), (3 : ℤ)) (by decide)).mpr (by decide)

/-- **C5 witness.** The minimality of the selected leftmost point applied
at the concrete input of the spec's example and the input point `(2,3)`. -/
theorem points_to_contour_extremes_witness :
    (extremes ((0 : ℤ), (0 : ℤ)) [(2, 3), (4, 0), (2, -3)]).1.1 ≤ (2 : ℤ) :=
  (points_to_contour_extremes ((0 : ℤ), (0 : ℤ)) [(2, 3), (4, 0), (2, -3)]).2.1
    (2, 3) (by decide)

/-- **C9 witness.** The none-iff-empty direction at the empty integer list
and the unwrap-safety part at the concrete parameters `paramsOne` and the
all-zero stream. -/
theorem points_to_contour_none_iff_witness :
    (points_to_contour ([] : List (Point ℤ)) = none ↔ ([] : List (Point ℤ)) = []) ∧
    (3 ≤ (polygonRandPoints paramsOne zeroStream).length ∧
      (points_to_contour (polygonRandPoints paramsOne zeroStream)).isSome = true) :=
  ⟨points_to_contour_none_iff.1 ℤ [],
   points_to_contour_none_iff.2 paramsOne zeroStream (by norm_num [paramsOne])⟩

/-- **C10 witness.** Membership applied to the head of the contour of a
concrete two-point input: the selected leftmost point is an input point. -/
theorem points_to_contour_mem_witness :
    (extremes ((0 : ℤ), (0 : ℤ)) [(2, 3)]).1 ∈ [((0 : ℤ), (0 : ℤ)), (2, 3)] := by
  obtain ⟨c, hc, hhead, hlast, hmem⟩ := points_to_contour_mem ((0 : ℤ), (0 : ℤ)) [(2, 3)]
  refine hmem _ ?_
  rw [points_to_contour_cons] at hc
  injection hc with hc
  rw [← hc]
  exact List.mem_cons_self _ _

end GeoRand
